import Mathlib

/-!
Verification of the assessment analytics engine.

Shallow embedding of `src/utils/data_processing.py` (pandas-based analytics over
assessment records) and proofs about its five operations:
`process_assessment_data`, `calculate_summary_stats`, `calculate_progress`,
`generate_trend_data`, `identify_areas_of_concern`.

Modelling conventions:
* Numeric values (scores, ages, timestamps) are rationals `ℚ`.
* A missing cell (pandas `NaN`) is `none : Option ℚ`; pandas aggregations skip
  `NaN` (`skipna=True`), which the embedding mirrors by collecting the non-`none`
  values of a column.  Arithmetic on possibly-missing values propagates `none`,
  matching IEEE `NaN` propagation, and comparisons against a missing value are
  false, matching `NaN < x = False`.
* A `DataFrame` is a list of rows plus its list of column names (`df.columns`);
  cells of a column not listed in `cols` are never consulted, mirroring the
  source's `col in df.columns` guards.
* Python dicts preserve insertion order, so dict results are association lists.
* `sort_values('assessment_date')` is modelled as a stable sort
  (`List.insertionSort`); every theorem below that depends on the order of
  equal-key rows is either restricted to distinct keys or uses two-element
  inputs, where any comparison sort agrees with the stable one.
* The in-place column assignment `df['age_group'] = pd.cut(...)` in
  `generate_trend_data` is modelled by explicit state passing: the function
  returns its result together with the post-state of its argument table.
* `df.groupby('age_group')` groups on a categorical column with the pandas 2.x
  default `observed=False`, so iteration yields every one of the four bucket
  categories, including buckets with no rows (whose mean is then `NaN`);
  the embedding follows that behaviour.
-/

/-- A row of the assessment `DataFrame`.  `none` models a missing cell (`NaN`
for numbers, `NaN`/unset for the derived categorical `age_group`). -/
structure Row where
  child_id : String
  age : Option ℚ
  assessment_date : ℚ
  social_score : Option ℚ
  communication_score : Option ℚ
  behavior_score : Option ℚ
  age_group : Option String := none
deriving Repr, DecidableEq

/-- A `DataFrame`: its rows together with its column labels (`df.columns`). -/
structure Table where
  rows : List Row
  cols : List String
deriving Repr, DecidableEq

/-- The three score metrics, in the fixed order the source iterates them. -/
def score_columns : List String :=
  ["social_score", "communication_score", "behavior_score"]

/-- Column labels of a table built from full assessment records
(the five record fields plus `notes`). -/
def default_cols : List String :=
  ["child_id", "age", "assessment_date",
   "social_score", "communication_score", "behavior_score", "notes"]

/-- Cell access `df[c]` at one row, for the numeric columns the engine aggregates.
Unknown labels yield `none`; the engine only reads labels guarded by
`c ∈ cols`. -/
def Row.get (r : Row) : String → Option ℚ
  | "social_score" => r.social_score
  | "communication_score" => r.communication_score
  | "behavior_score" => r.behavior_score
  | "age" => r.age
  | "assessment_date" => some r.assessment_date
  | _ => none

/-- Subtraction propagating missing values (`NaN` arithmetic). -/
def osub : Option ℚ → Option ℚ → Option ℚ
  | some a, some b => some (a - b)
  | _, _ => none

/-- Division propagating missing values (`NaN` arithmetic). -/
def odiv : Option ℚ → Option ℚ → Option ℚ
  | some a, some b => some (a / b)
  | _, _ => none

/-- The non-missing values of column `c`, in row order: what a pandas
`skipna=True` aggregation of `df[c]` actually aggregates. -/
def col_vals (rows : List Row) (c : String) : List ℚ :=
  rows.filterMap (fun r => r.get c)

/-- Pandas `Series.mean()`: arithmetic mean of the non-missing values, `NaN` (`none`)
when there are none. -/
def omean (xs : List ℚ) : Option ℚ :=
  if xs.isEmpty then none else some (xs.sum / xs.length)

/-- Pandas `Series.median()`: middle element of the sorted values (average of the two
middle elements for an even count), `NaN` when there are none. -/
def omedian (xs : List ℚ) : Option ℚ :=
  if xs.isEmpty then none
  else if (List.insertionSort (· ≤ ·) xs).length % 2 = 1 then
    some ((List.insertionSort (· ≤ ·) xs).getD
      ((List.insertionSort (· ≤ ·) xs).length / 2) 0)
  else
    some (((List.insertionSort (· ≤ ·) xs).getD
        ((List.insertionSort (· ≤ ·) xs).length / 2 - 1) 0 +
      (List.insertionSort (· ≤ ·) xs).getD
        ((List.insertionSort (· ≤ ·) xs).length / 2) 0) / 2)

/-- Pandas `Series.std()` squared: the sample variance (denominator `n - 1`), `NaN`
when fewer than two values.  The source reports its square root; no claim
concerns the reported magnitude, only definedness, which the square root
preserves, and `√` is not exactly representable over `ℚ`. -/
def svar (xs : List ℚ) : Option ℚ :=
  if xs.length < 2 then none
  else
    some (((xs.map (fun x => (x - xs.sum / xs.length) ^ 2)).sum) / (xs.length - 1 : ℕ))

/-- Per-metric summary statistics, one pandas aggregate per field
(`std` stores the squared value, see `svar`). -/
structure Stats where
  mean : Option ℚ
  median : Option ℚ
  std : Option ℚ
  min : Option ℚ
  max : Option ℚ
deriving Repr, DecidableEq

/-- The function `process_assessment_data`: an empty input yields the empty frame (no rows,
no columns); otherwise one row per record with the standard columns, dates
already coerced (timestamps are `ℚ` throughout the embedding). -/
def process_assessment_data (assessments : List Row) : Table :=
  if assessments.isEmpty then { rows := [], cols := [] }
  else { rows := assessments, cols := default_cols }

/-- Loop body of `calculate_summary_stats` for one score column: the stats dict
when the column is present, nothing otherwise. -/
def summary_entry (t : Table) (col : String) : Option Stats :=
  if col ∈ t.cols then
    some
      { mean := omean (col_vals t.rows col)
        median := omedian (col_vals t.rows col)
        std := svar (col_vals t.rows col)
        min := (col_vals t.rows col).min?
        max := (col_vals t.rows col).max? }
  else none

/-- The function `calculate_summary_stats`: for each score column present in the frame,
mean / median / std / min / max of that column. -/
def calculate_summary_stats (t : Table) : List (String × Stats) :=
  score_columns.filterMap fun col => (summary_entry t col).map (fun s => (col, s))

/-- One entry of the progress dict for a metric. -/
structure ProgressEntry where
  initial_score : Option ℚ
  current_score : Option ℚ
  absolute_change : Option ℚ
  percent_change : Option ℚ
deriving Repr, DecidableEq

/-- The selection `df[df['child_id'] == child_id].sort_values('assessment_date')`:
the child's rows in ascending date order (stable sort). -/
def child_rows (t : Table) (child_id : String) : List Row :=
  List.insertionSort (fun a b => a.assessment_date ≤ b.assessment_date)
    (t.rows.filter (fun r => r.child_id == child_id))

/-- Loop body of `calculate_progress` for one score column: the progress dict
built from the first and last of the child's date-sorted rows when the column
is present and the child has at least two rows, nothing otherwise.
`initial != 0` is Python's comparison, where `NaN != 0` is true, so a missing
initial value takes the division branch and propagates `NaN`. -/
def progress_entry (t : Table) (child_id col : String) : Option ProgressEntry :=
  if col ∈ t.cols ∧ 2 ≤ (child_rows t child_id).length then
    let initial := (child_rows t child_id).head?.bind (fun r => r.get col)
    let current := (child_rows t child_id).getLast?.bind (fun r => r.get col)
    let change := osub current initial
    some
      { initial_score := initial
        current_score := current
        absolute_change := change
        percent_change :=
          if initial ≠ some 0 then (odiv change initial).map (· * 100)
          else some 0 }
  else none

/-- The function `calculate_progress`: initial / current / absolute / percent change per
score column, from the first and last of the child's date-sorted rows. -/
def calculate_progress (t : Table) (child_id : String) : List (String × ProgressEntry) :=
  if t.rows.isEmpty then []
  else if (child_rows t child_id).isEmpty then []
  else
    score_columns.filterMap fun col =>
      (progress_entry t child_id col).map (fun e => (col, e))

/-- The four fixed age-bucket labels, in category (bin) order. -/
def age_labels : List String := ["0-5", "6-10", "11-15", "16+"]

/-- Bucketing `pd.cut(age, bins=[0, 5, 10, 15, 20], labels=[...])` at one value:
left-open right-closed bins; ages outside every bin, and missing ages,
map to `NaN` (`none`). -/
def age_bucket : Option ℚ → Option String
  | none => none
  | some a =>
    if 0 < a ∧ a ≤ 5 then some "0-5"
    else if 5 < a ∧ a ≤ 10 then some "6-10"
    else if 10 < a ∧ a ≤ 15 then some "11-15"
    else if 15 < a ∧ a ≤ 20 then some "16+"
    else none

/-- Result of `generate_trend_data` when non-empty: the `overall` and
`by_age_group` dicts. -/
structure Trends where
  overall : List (ℚ × Option ℚ)
  by_age_group : List (String × Option ℚ)
deriving Repr, DecidableEq

/-- The grouping `df.groupby('assessment_date')[metric].mean().to_dict()`: one entry per
distinct timestamp, in ascending key order (`groupby` sorts keys), mapped to
the mean of the metric over that timestamp's rows. -/
def overall_trend (rows : List Row) (metric : String) : List (ℚ × Option ℚ) :=
  (List.insertionSort (· ≤ ·) (rows.map (fun r => r.assessment_date)).dedup).map
    fun d => (d, omean (col_vals (rows.filter (fun r => r.assessment_date == d)) metric))

/-- The function `generate_trend_data`, with the table's post-state as second component:
the source assigns `df['age_group'] = pd.cut(df['age'], ...)` in place, so on
the non-trivial path the returned table carries the derived column.  The
`by_age_group` dict has one entry per bucket category (pandas 2.x
`observed=False`), mapped to the bucket's mean, `NaN` for an empty bucket. -/
def generate_trend_data (t : Table) (metric : String) : Option Trends × Table :=
  if t.rows.isEmpty ∨ metric ∉ t.cols then (none, t)
  else
    let rows' := t.rows.map fun r => { r with age_group := age_bucket r.age }
    let t' : Table :=
      { rows := rows'
        cols := if "age_group" ∈ t.cols then t.cols else t.cols ++ ["age_group"] }
    (some
      { overall := overall_trend t.rows metric
        by_age_group := age_labels.map fun l =>
          (l, omean (col_vals (rows'.filter (fun r => r.age_group == some l)) metric)) },
     t')

/-- One concern entry of `identify_areas_of_concern`. -/
structure Concern where
  area : String
  count : ℕ
  affected_children : ℕ
  average_score : Option ℚ
deriving Repr, DecidableEq

/-- Python `col.replace("_score", "")`, tabulated on the three score-column names it
is applied to (Lean's `String.replace` does not reduce in the kernel). -/
def strip_score : String → String
  | "social_score" => "social"
  | "communication_score" => "communication"
  | "behavior_score" => "behavior"
  | c => c

/-- The mask `df[col] < threshold` at one row: strict comparison, false on a missing
value (`NaN < x` is false). -/
def below_threshold (c : String) (threshold : ℚ) (r : Row) : Bool :=
  match r.get c with
  | some v => v < threshold
  | none => false

/-- Loop body of `identify_areas_of_concern` for one score column: a concern
entry when the column is present and at least one row is strictly below the
threshold, nothing otherwise. -/
def concern_entry (t : Table) (threshold : ℚ) (col : String) : Option Concern :=
  if col ∈ t.cols then
    let low := t.rows.filter (below_threshold col threshold)
    if low.isEmpty then none
    else
      some
        { area := strip_score col
          count := low.length
          affected_children := (low.map Row.child_id).dedup.length
          average_score := omean (col_vals low col) }
  else none

/-- The function `identify_areas_of_concern` (default `threshold=4.0` at the call sites):
for each score column present, the rows strictly below the threshold; a
concern entry whenever there is at least one such row. -/
def identify_areas_of_concern (t : Table) (threshold : ℚ) : List Concern :=
  score_columns.filterMap fun col => concern_entry t threshold col

/-- The count the concern report assigns to an area, an absent entry counting
as zero. -/
def area_count (t : Table) (threshold : ℚ) (area : String) : ℕ :=
  match (identify_areas_of_concern t threshold).find? (fun e => e.area == area) with
  | some e => e.count
  | none => 0

/-- Spec-side reading of the age buckets: the row's age lies in the fixed
left-open interval named by the label. -/
def in_bucket (l : String) (r : Row) : Prop :=
  ∃ a, r.age = some a ∧
    ((l = "0-5" ∧ 0 < a ∧ a ≤ 5) ∨
     (l = "6-10" ∧ 5 < a ∧ a ≤ 10) ∨
     (l = "11-15" ∧ 10 < a ∧ a ≤ 15) ∨
     (l = "16+" ∧ 15 < a ∧ a ≤ 20))

/-- Forget the derived `age_group` column of a row: the view of a row through
the seven ingestion columns only. -/
def clear_age_group (r : Row) : Row :=
  { r with age_group := none }

/-! ## Concrete tables used as witnesses and counterexamples -/

/-- First assessment of child `A`: all three scores present. -/
def rA : Row :=
  { child_id := "A", age := some 8, assessment_date := 1,
    social_score := some 5, communication_score := some 3, behavior_score := some 4 }

/-- Second assessment of child `A`, one month later. -/
def rB : Row :=
  { child_id := "A", age := some 8, assessment_date := 2,
    social_score := some 7, communication_score := some 4, behavior_score := some 6 }

/-- Two assessments of one child, distinct dates, full columns. -/
def t_two : Table := { rows := [rA, rB], cols := default_cols }

/-- Table `t_two` with its rows in the opposite order. -/
def t_two_sw : Table := { rows := [rB, rA], cols := default_cols }

/-- Like `rA` but with the social score missing. -/
def r_m1 : Row :=
  { child_id := "A", age := some 8, assessment_date := 1,
    social_score := none, communication_score := some 3, behavior_score := some 4 }

/-- A table where child `A` has two rows but only one non-missing social
score. -/
def t_missing : Table := { rows := [r_m1, rB], cols := default_cols }

/-- A single assessment of a three-year-old. -/
def r1 : Row :=
  { child_id := "A", age := some 3, assessment_date := 1,
    social_score := some 5, communication_score := some 3, behavior_score := some 4 }

/-- A one-row table: only the `0-5` age bucket is inhabited. -/
def t_one : Table := { rows := [r1], cols := default_cols }

/-- Child `A`, scored 3 everywhere on some date. -/
def r_e1 : Row :=
  { child_id := "A", age := some 8, assessment_date := 1,
    social_score := some 3, communication_score := some 3, behavior_score := some 3 }

/-- Child `A`, scored 7 everywhere on the same date as `r_e1`. -/
def r_e2 : Row :=
  { child_id := "A", age := some 8, assessment_date := 1,
    social_score := some 7, communication_score := some 7, behavior_score := some 7 }

/-- The social progress entry of child `A` in `t_two`: 5 → 7, so +2 and
a 40 percent change. -/
def entry_ex : ProgressEntry :=
  { initial_score := some 5, current_score := some 7, absolute_change := some 2,
    percent_change := some 40 }

/-- The social summary of `t_two`: values 5 and 7 (`std` squared, see
`svar`). -/
def stats_ex : Stats :=
  { mean := some 6, median := some 6, std := some 2, min := some 5, max := some 7 }

/-- The communication concern of `t_two` at threshold 5: both rows qualify
(scores 3 and 4), one child, mean 7/2. -/
def e_conc : Concern :=
  { area := "communication", count := 2, affected_children := 1,
    average_score := some (7 / 2) }

/-- Two rows for the same child with equal assessment dates. -/
def t_tie : Table := { rows := [r_e1, r_e2], cols := default_cols }

/-- Table `t_tie` with its rows in the opposite order. -/
def t_tie_sw : Table := { rows := [r_e2, r_e1], cols := default_cols }

/-! ## General lemmas -/

/-- Looking up a key absent from the generating list of a keyed `filterMap`
finds nothing. -/
theorem lookup_keyed_of_not_mem {β : Type} (g : String → Option β) (cs : List String)
    (col : String) (h : col ∉ cs) :
    (cs.filterMap fun c => (g c).map (fun e => (c, e))).lookup col = none := by
  induction cs with
  | nil => simp
  | cons c cs ih =>
    simp only [List.mem_cons, not_or] at h
    rw [List.filterMap_cons]
    cases hgc : g c with
    | none => exact ih h.2
    | some e =>
      have hb : (col == c) = false := beq_eq_false_iff_ne.mpr h.1
      simp [List.lookup_cons, hb, ih h.2]

/-- Looking up a key of a keyed `filterMap` over a duplicate-free key list
recovers the generator's value at that key. -/
theorem lookup_keyed {β : Type} (g : String → Option β) (cs : List String)
    (col : String) (hnd : cs.Nodup) (hcol : col ∈ cs) :
    (cs.filterMap fun c => (g c).map (fun e => (c, e))).lookup col = g col := by
  induction cs with
  | nil => simp at hcol
  | cons c cs ih =>
    rw [List.nodup_cons] at hnd
    rw [List.filterMap_cons]
    rcases List.mem_cons.mp hcol with h | h
    · subst h
      cases hgc : g col with
      | none => simpa [hgc] using lookup_keyed_of_not_mem g cs col hnd.1
      | some e => simp [List.lookup_cons, hgc]
    · have hne : col ≠ c := fun hh => hnd.1 (hh ▸ h)
      have hb : (col == c) = false := beq_eq_false_iff_ne.mpr hne
      cases hgc : g c with
      | none => exact ih hnd.2 h
      | some e => simp [List.lookup_cons, hb, ih hnd.2 h]

/-- A `filterMap` whose generator is a guarded `some` is a `filter` followed by
a `map`. -/
theorem filterMap_eq_filter_map_of {α β : Type} (f : α → Option β) (p : α → Bool) (g : α → β)
    (hf : ∀ a, f a = if p a then some (g a) else none) (cs : List α) :
    cs.filterMap f = (cs.filter p).map g := by
  induction cs with
  | nil => simp
  | cons c cs ih =>
    rw [List.filterMap_cons, List.filter_cons]
    by_cases hp : p c = true
    · simp [hf c, hp, ih]
    · simp [hf c, hp, ih]

/-- The child's sorted history has as many rows as match the child in the raw
table. -/
theorem child_rows_length (t : Table) (c : String) :
    (child_rows t c).length = t.rows.countP (fun r => r.child_id == c) := by
  rw [child_rows, List.length_insertionSort, ← List.countP_eq_length_filter]

/-- On a score column, the progress dict lookup is exactly the per-column loop
body. -/
theorem lookup_calculate_progress (t : Table) (c col : String)
    (hcol : col ∈ score_columns) :
    (calculate_progress t c).lookup col = progress_entry t c col := by
  unfold calculate_progress
  split
  · rename_i h
    have hn : child_rows t c = [] := by
      simp [child_rows, List.isEmpty_iff.mp h]
    simp [progress_entry, hn]
  · split
    · rename_i h
      have hn : child_rows t c = [] := List.isEmpty_iff.mp h
      simp [progress_entry, hn]
    · exact lookup_keyed (progress_entry t c) score_columns col (by decide) hcol

/-! ## Claims -/

/-- Percent change of an emitted entry follows the division-by-zero policy. -/
theorem progress_entry_percent (t : Table) (c col : String) (e : ProgressEntry)
    (h : progress_entry t c col = some e) :
    e.percent_change =
      if e.initial_score = some 0 then some 0
      else (odiv e.absolute_change e.initial_score).map (· * 100) := by
  simp only [progress_entry] at h
  split at h
  · obtain rfl := (Option.some.inj h).symm
    by_cases hi : ((child_rows t c).head?.bind fun r => r.get col) = some 0 <;>
      simp [hi]
  · simp at h

/-- C1: for every table and child, every entry the progress dict emits reports
`percent_change = 0` when its `initial_score` is `0`, and
`(absolute_change / initial_score) * 100` otherwise (missing values
propagating). -/
theorem C1_percent_change_policy (t : Table) (c col : String) (e : ProgressEntry)
    (h : (col, e) ∈ calculate_progress t c) :
    e.percent_change =
      if e.initial_score = some 0 then some 0
      else (odiv e.absolute_change e.initial_score).map (· * 100) := by
  simp only [calculate_progress] at h
  split at h
  · simp at h
  · split at h
    · simp at h
    · rw [List.mem_filterMap] at h
      obtain ⟨c2, _, hf⟩ := h
      rw [Option.map_eq_some'] at hf
      obtain ⟨e2, hge, hpair⟩ := hf
      injection hpair with h1 h2
      subst h1; subst h2
      exact progress_entry_percent t c c2 e2 hge

/-- C1 witness: the policy theorem applied to the social entry of `t_two`. -/
theorem C1_witness :
    entry_ex.percent_change =
      if entry_ex.initial_score = some 0 then some 0
      else (odiv entry_ex.absolute_change entry_ex.initial_score).map (· * 100) :=
  C1_percent_change_policy t_two "A" "social_score" entry_ex (by
    norm_num [calculate_progress, progress_entry, child_rows, t_two, rA, rB, Row.get,
      entry_ex, score_columns, default_cols, List.insertionSort, List.orderedInsert,
      osub, odiv, List.filterMap_cons, List.filter_cons])

/-- C2 counterexample: in `t_missing`, child `A` has only one non-missing
social value, yet `calculate_progress` emits a social entry — built from the
first and last row values, missing included — because the child has two rows.
This refutes "emits an entry exactly when the filtered rows contain at least 2
non-missing values, first/last taken among non-missing values". -/
theorem C2_counterexample :
    (col_vals (t_missing.rows.filter (fun r => r.child_id == "A")) "social_score").length = 1 ∧
    (calculate_progress t_missing "A").lookup "social_score" =
      some { initial_score := none, current_score := some 7,
             absolute_change := none, percent_change := none } := by
  constructor
  · simp +decide [col_vals, t_missing, r_m1, rB, Row.get, List.filter_cons,
      List.filterMap_cons]
  · simp +decide [calculate_progress, progress_entry, child_rows, t_missing, r_m1, rB,
      Row.get, score_columns, default_cols, List.insertionSort, List.orderedInsert,
      osub, odiv, List.filterMap_cons, List.filter_cons, List.lookup]

/-- C2 amended: the progress dict has an entry for a score column exactly when
the column is present and the child matches at least two rows of the table
(missing values counting as rows); the entry's initial and current scores are
the first and last rows' values in date order, whether or not missing. -/
theorem C2_entry_emission (t : Table) (c col : String) (hcol : col ∈ score_columns) :
    (((calculate_progress t c).lookup col).isSome ↔
      col ∈ t.cols ∧ 2 ≤ t.rows.countP (fun r => r.child_id == c)) ∧
    ∀ e, (calculate_progress t c).lookup col = some e →
      e.initial_score = ((child_rows t c).head?.bind fun r => r.get col) ∧
      e.current_score = ((child_rows t c).getLast?.bind fun r => r.get col) := by
  have hl := lookup_calculate_progress t c col hcol
  constructor
  · rw [hl]
    simp only [progress_entry, ← child_rows_length]
    split
    · rename_i h
      simpa using h
    · rename_i h
      simpa using h
  · intro e he
    rw [hl] at he
    simp only [progress_entry] at he
    split at he
    · obtain rfl := (Option.some.inj he).symm
      constructor <;> rfl
    · simp at he

/-- C2 witness: emission for the social column of `t_missing` despite the
missing initial value. -/
theorem C2_witness :
    (((calculate_progress t_missing "A").lookup "social_score").isSome ↔
      "social_score" ∈ t_missing.cols ∧
        2 ≤ t_missing.rows.countP (fun r => r.child_id == "A")) ∧
    ∀ e, (calculate_progress t_missing "A").lookup "social_score" = some e →
      e.initial_score = ((child_rows t_missing "A").head?.bind fun r => r.get "social_score") ∧
      e.current_score = ((child_rows t_missing "A").getLast?.bind fun r => r.get "social_score") :=
  C2_entry_emission t_missing "A" "social_score" (by decide)

/-- Updating the derived `age_group` field leaves every aggregated column of a
row unchanged. -/
theorem get_update_age_group (r : Row) (x : Option String) (c : String) :
    ({ r with age_group := x } : Row).get c = r.get c := rfl

/-- The code's bucket assignment agrees with the fixed left-open intervals of
the spec: a row is assigned label `l` exactly when its age lies in `l`'s
interval. -/
theorem age_bucket_iff (l : String) (r : Row) :
    (age_bucket r.age == some l) = true ↔ in_bucket l r := by
  cases hage : r.age with
  | none => simp [age_bucket, in_bucket, hage]
  | some a =>
    simp only [age_bucket, in_bucket, hage, Option.some.injEq, beq_iff_eq]
    constructor
    · intro hl
      split_ifs at hl with h1 h2 h3 h4
      · exact ⟨a, rfl, Or.inl ⟨(Option.some.inj hl).symm, h1⟩⟩
      · exact ⟨a, rfl, Or.inr (Or.inl ⟨(Option.some.inj hl).symm, h2⟩)⟩
      · exact ⟨a, rfl, Or.inr (Or.inr (Or.inl ⟨(Option.some.inj hl).symm, h3⟩))⟩
      · exact ⟨a, rfl, Or.inr (Or.inr (Or.inr ⟨(Option.some.inj hl).symm, h4⟩))⟩
    · rintro ⟨a2, ha2, hcases⟩
      obtain rfl : a = a2 := ha2
      rcases hcases with ⟨rfl, hb⟩ | ⟨rfl, hb⟩ | ⟨rfl, hb⟩ | ⟨rfl, hb⟩
      · rw [if_pos hb]
      · rw [if_neg (by rintro ⟨_, h⟩; linarith [hb.1]), if_pos hb]
      · rw [if_neg (by rintro ⟨_, h⟩; linarith [hb.1]),
            if_neg (by rintro ⟨_, h⟩; linarith [hb.1]), if_pos hb]
      · rw [if_neg (by rintro ⟨_, h⟩; linarith [hb.1]),
            if_neg (by rintro ⟨_, h⟩; linarith [hb.1]),
            if_neg (by rintro ⟨_, h⟩; linarith [hb.1]), if_pos hb]

/-- C3 counterexample: on a one-row table (age 3) only the `0-5` bucket has a
row, yet `by_age_group` carries an entry for every one of the four buckets,
the empty ones mapped to `NaN` — pandas 2.x `groupby` with `observed=False`
iterates unobserved categories.  This refutes "buckets containing no row
produce no entry". -/
theorem C3_counterexample :
    ((generate_trend_data t_one "social_score").1.map Trends.by_age_group) =
      some [("0-5", some 5), ("6-10", none), ("11-15", none), ("16+", none)] ∧
    t_one.rows.filter (fun r => age_bucket r.age == some "6-10") = [] := by
  constructor
  · simp +decide [generate_trend_data, t_one, r1, Row.get, age_labels, age_bucket,
      default_cols, omean, col_vals, List.filter_cons, List.filterMap_cons]
  · simp +decide [t_one, r1, age_bucket, List.filter_cons]

/-- C3 amended: on a non-empty table with the metric present, `by_age_group`
has exactly the four bucket labels as keys, in bin order; each label maps to
the mean of the metric over the rows whose age lies in that bucket (`NaN` when
the bucket is empty), bucket membership being the fixed left-open intervals,
so rows with an age in no bucket are excluded everywhere. -/
theorem C3_age_group_trend (t : Table) (metric : String)
    (h1 : t.rows ≠ []) (h2 : metric ∈ t.cols) :
    ∃ tr, (generate_trend_data t metric).1 = some tr ∧
      tr.by_age_group.map Prod.fst = age_labels ∧
      ∀ l v, (l, v) ∈ tr.by_age_group →
        v = omean (col_vals (t.rows.filter (fun r => age_bucket r.age == some l)) metric) ∧
        ∀ r ∈ t.rows, ((age_bucket r.age == some l) = true ↔ in_bucket l r) := by
  have hg : ¬(t.rows.isEmpty = true ∨ metric ∉ t.cols) := by
    simp only [List.isEmpty_iff, not_or, not_not]
    exact ⟨h1, h2⟩
  unfold generate_trend_data
  rw [if_neg hg]
  refine ⟨_, rfl, rfl, ?_⟩
  intro l v hmem
  rw [List.mem_map] at hmem
  obtain ⟨l2, hl2, heq⟩ := hmem
  injection heq with he1 he2
  subst he1
  subst he2
  refine ⟨?_, fun r _ => age_bucket_iff l2 r⟩
  rw [List.filter_map, col_vals, List.filterMap_map]
  rfl

/-- C3 witness: the amended characterisation applied to `t_one`. -/
theorem C3_witness :
    ∃ tr, (generate_trend_data t_one "social_score").1 = some tr ∧
      tr.by_age_group.map Prod.fst = age_labels ∧
      ∀ l v, (l, v) ∈ tr.by_age_group →
        v = omean (col_vals (t_one.rows.filter (fun r => age_bucket r.age == some l))
              "social_score") ∧
        ∀ r ∈ t_one.rows, ((age_bucket r.age == some l) = true ↔ in_bucket l r) :=
  C3_age_group_trend t_one "social_score" (by simp [t_one])
    (by simp +decide [t_one, default_cols])

/-- C4 counterexample: `generate_trend_data` hands back a modified table — the
in-place `df['age_group'] = pd.cut(...)` stores the derived bucket column in
its input — refuting "every engine operation leaves its input table unchanged
and no age_group column is ever stored". -/
theorem C4_counterexample :
    (generate_trend_data t_one "social_score").2 ≠ t_one := by
  simp +decide [generate_trend_data, t_one, r1, default_cols]

/-- C4 amended: `generate_trend_data` is the one operation with a side effect
on the table, and that effect is confined to the derived `age_group` column:
the seven ingestion columns of every row are untouched and the column list at
most gains `age_group` (the other four operations read the table purely). -/
theorem C4_frame_effect (t : Table) (metric : String) :
    ((generate_trend_data t metric).2.rows.map clear_age_group =
      t.rows.map clear_age_group) ∧
    ((generate_trend_data t metric).2.cols = t.cols ∨
      (generate_trend_data t metric).2.cols = t.cols ++ ["age_group"]) := by
  unfold generate_trend_data
  split
  · exact ⟨rfl, Or.inl rfl⟩
  · constructor
    · rw [List.map_map]
      rfl
    · by_cases hag : "age_group" ∈ t.cols
      · exact Or.inl (by simp [hag])
      · exact Or.inr (by simp [hag])

/-- C5: the concern report is, in the fixed column order, one entry per present
score column having at least one row strictly below the threshold, carrying
the qualifying-row count, the number of distinct children among them and their
mean score; columns with no qualifying row contribute no entry. -/
theorem C5_concern_report (t : Table) (h : ℚ) :
    identify_areas_of_concern t h =
      (score_columns.filter fun col =>
        decide (col ∈ t.cols) && !(t.rows.filter (below_threshold col h)).isEmpty).map
        fun col =>
          { area := strip_score col
            count := t.rows.countP (below_threshold col h)
            affected_children :=
              ((t.rows.filter (below_threshold col h)).map Row.child_id).dedup.length
            average_score := omean (col_vals (t.rows.filter (below_threshold col h)) col) } := by
  refine filterMap_eq_filter_map_of _ _ _ ?_ score_columns
  intro col
  unfold concern_entry
  by_cases h1 : col ∈ t.cols
  · by_cases h2 : (t.rows.filter (below_threshold col h)).isEmpty = true
    · simp [h1, h2]
    · simp [h1, h2, List.countP_eq_length_filter]
  · simp [h1]

/-- Sorting by date is insensitive to the input order when the dates are
pairwise distinct: any two permuted row lists sort to the same list. -/
theorem insertionSort_date_eq_of_perm {l1 l2 : List Row}
    (hperm : l1.Perm l2) (hnd : (l1.map Row.assessment_date).Nodup) :
    List.insertionSort (fun a b => a.assessment_date ≤ b.assessment_date) l1 =
      List.insertionSort (fun a b => a.assessment_date ≤ b.assessment_date) l2 := by
  haveI : IsTotal Row (fun a b => a.assessment_date ≤ b.assessment_date) :=
    ⟨fun a b => le_total _ _⟩
  haveI : IsTrans Row (fun a b => a.assessment_date ≤ b.assessment_date) :=
    ⟨fun a b c hab hbc => le_trans hab hbc⟩
  haveI : IsAntisymm Row (fun a b => a.assessment_date < b.assessment_date) :=
    ⟨fun a b hab hba => absurd hba (lt_asymm hab)⟩
  have hp : (List.insertionSort (fun a b : Row => a.assessment_date ≤ b.assessment_date)
        l1).Perm
      (List.insertionSort (fun a b : Row => a.assessment_date ≤ b.assessment_date) l2) :=
    (List.perm_insertionSort _ l1).trans (hperm.trans (List.perm_insertionSort _ l2).symm)
  have hstrict : ∀ l : List Row, (l.map Row.assessment_date).Nodup →
      List.Sorted (fun a b : Row => a.assessment_date < b.assessment_date)
        (List.insertionSort (fun a b : Row => a.assessment_date ≤ b.assessment_date) l) := by
    intro l hl
    have hsle := List.sorted_insertionSort
      (fun a b : Row => a.assessment_date ≤ b.assessment_date) l
    have hndsort : ((List.insertionSort
        (fun a b : Row => a.assessment_date ≤ b.assessment_date) l).map
          Row.assessment_date).Nodup :=
      (((List.perm_insertionSort _ l).map Row.assessment_date).nodup_iff).mpr hl
    have hne : List.Pairwise (fun a b : Row => a.assessment_date ≠ b.assessment_date)
        (List.insertionSort (fun a b : Row => a.assessment_date ≤ b.assessment_date) l) :=
      List.pairwise_map.mp hndsort
    exact (hsle.and hne).imp fun hab => lt_of_le_of_ne hab.1 hab.2
  have hnd2 : (l2.map Row.assessment_date).Nodup :=
    ((hperm.map Row.assessment_date).nodup_iff).mp hnd
  exact List.eq_of_perm_of_sorted hp (hstrict l1 hnd) (hstrict l2 hnd2)

/-- C6 counterexample: two same-date rows for one child; swapping them swaps
which row the sort puts first, so `calculate_progress` is not invariant under
permutation of the rows — the claim fails in the presence of date ties. -/
theorem C6_counterexample :
    t_tie.rows.Perm t_tie_sw.rows ∧ t_tie.cols = t_tie_sw.cols ∧
    calculate_progress t_tie "A" ≠ calculate_progress t_tie_sw "A" := by
  refine ⟨List.Perm.swap _ _ _, rfl, fun heq => ?_⟩
  have h1 : ((calculate_progress t_tie "A").lookup "social_score").map
      ProgressEntry.initial_score = some (some 3) := by
    simp +decide [calculate_progress, progress_entry, child_rows, t_tie, r_e1, r_e2,
      Row.get, score_columns, default_cols, List.insertionSort, List.orderedInsert,
      osub, odiv, List.filterMap_cons, List.filter_cons, List.lookup]
  have h2 : ((calculate_progress t_tie_sw "A").lookup "social_score").map
      ProgressEntry.initial_score = some (some 7) := by
    simp +decide [calculate_progress, progress_entry, child_rows, t_tie_sw, r_e1, r_e2,
      Row.get, score_columns, default_cols, List.insertionSort, List.orderedInsert,
      osub, odiv, List.filterMap_cons, List.filter_cons, List.lookup]
  rw [heq, h2] at h1
  norm_num at h1

/-- C6 amended: `calculate_progress` is invariant under permutation of the
table's rows provided the rows matching the child carry pairwise distinct
assessment dates; with ties the stable sort keeps the input order of equal
dates, so permuting tied rows can change the result. -/
theorem C6_perm_invariance (t1 t2 : Table) (c : String)
    (hcols : t1.cols = t2.cols) (hperm : t1.rows.Perm t2.rows)
    (hnd : ((t1.rows.filter (fun r => r.child_id == c)).map Row.assessment_date).Nodup) :
    calculate_progress t1 c = calculate_progress t2 c := by
  have hfp := hperm.filter (fun r => r.child_id == c)
  have hcr : child_rows t1 c = child_rows t2 c :=
    insertionSort_date_eq_of_perm hfp hnd
  have hemp : t1.rows.isEmpty = t2.rows.isEmpty := hperm.isEmpty_eq
  have hpe : ∀ col, progress_entry t1 c col = progress_entry t2 c col := by
    intro col
    unfold progress_entry
    rw [hcols, hcr]
  unfold calculate_progress
  rw [hemp, hcr]
  simp only [hpe]

/-- C6 witness: permutation invariance on `t_two`, whose two rows have
distinct dates. -/
theorem C6_witness : calculate_progress t_two "A" = calculate_progress t_two_sw "A" :=
  C6_perm_invariance t_two t_two_sw "A" rfl (List.Perm.swap _ _ _)
    (by simp +decide [t_two, rA, rB, List.filter_cons])

/-- C7: insufficient data yields empty results, not errors: the empty frame
summarises to an empty dict; a child with fewer than two matching rows (in
particular an empty table or an unknown child) gets an empty progress dict; an
empty table or absent metric column gives an empty trend dict (and an
untouched table); an absent score column is simply omitted from the summary. -/
theorem C7_insufficient_data :
    (calculate_summary_stats (process_assessment_data []) = []) ∧
    (∀ t c, t.rows = [] → calculate_progress t c = []) ∧
    (∀ t c, t.rows.countP (fun r => r.child_id == c) < 2 → calculate_progress t c = []) ∧
    (∀ t metric, t.rows = [] ∨ metric ∉ t.cols → generate_trend_data t metric = (none, t)) ∧
    (∀ t col, col ∈ score_columns → col ∉ t.cols →
      (calculate_summary_stats t).lookup col = none) := by
  refine ⟨?_, ?_, ?_, ?_, ?_⟩
  · simp [calculate_summary_stats, process_assessment_data, summary_entry, score_columns]
  · intro t c h
    simp [calculate_progress, h]
  · intro t c h
    have hpe : ∀ col, progress_entry t c col = none := by
      intro col
      unfold progress_entry
      rw [if_neg]
      rintro ⟨-, h2⟩
      rw [child_rows_length] at h2
      omega
    simp [calculate_progress, hpe]
  · intro t metric h
    unfold generate_trend_data
    rcases h with h | h
    · rw [if_pos (Or.inl (List.isEmpty_iff.mpr h))]
    · rw [if_pos (Or.inr h)]
  · intro t col hcol habs
    have hnone : summary_entry t col = none := by
      unfold summary_entry
      rw [if_neg habs]
    exact (lookup_keyed (summary_entry t) score_columns col (by decide) hcol).trans hnone

/-- C7 witness: a child with no rows in a non-empty table gets an empty
progress dict. -/
theorem C7_witness : calculate_progress t_one "B" = [] :=
  C7_insufficient_data.2.2.1 t_one "B" (by decide)

/-- A list minimum is a member bounding the list below. -/
theorem min?_spec {xs : List ℚ} {m : ℚ} (h : xs.min? = some m) :
    m ∈ xs ∧ ∀ b ∈ xs, m ≤ b := by
  haveI : Std.Antisymm ((· : ℚ) ≤ ·) := ⟨fun h1 h2 => le_antisymm h1 h2⟩
  exact (List.min?_eq_some_iff (fun a => le_refl a) (fun a b => min_choice a b)
    (fun a b c => le_min_iff)).mp h

/-- A list maximum is a member bounding the list above. -/
theorem max?_spec {xs : List ℚ} {m : ℚ} (h : xs.max? = some m) :
    m ∈ xs ∧ ∀ b ∈ xs, b ≤ m := by
  haveI : Std.Antisymm ((· : ℚ) ≤ ·) := ⟨fun h1 h2 => le_antisymm h1 h2⟩
  exact (List.max?_eq_some_iff (fun a => le_refl a) (fun a b => max_choice a b)
    (fun a b c => max_le_iff)).mp h

/-- A lower bound of a non-empty list bounds its arithmetic mean. -/
theorem le_list_mean (xs : List ℚ) (m : ℚ) (hne : xs ≠ []) (h : ∀ x ∈ xs, m ≤ x) :
    m ≤ xs.sum / xs.length := by
  have hpos : (0 : ℚ) < xs.length := by
    exact_mod_cast List.length_pos.mpr hne
  rw [le_div_iff₀ hpos]
  have := List.card_nsmul_le_sum xs m h
  rwa [nsmul_eq_mul, mul_comm] at this

/-- An upper bound of a non-empty list bounds its arithmetic mean. -/
theorem list_mean_le (xs : List ℚ) (M : ℚ) (hne : xs ≠ []) (h : ∀ x ∈ xs, x ≤ M) :
    xs.sum / xs.length ≤ M := by
  have hpos : (0 : ℚ) < xs.length := by
    exact_mod_cast List.length_pos.mpr hne
  rw [div_le_iff₀ hpos]
  have := List.sum_le_card_nsmul xs M h
  rwa [nsmul_eq_mul, mul_comm] at this

/-- The median of a non-empty list lies between any lower and upper bound of
the list. -/
theorem omedian_bounds (xs : List ℚ) (hne : xs ≠ []) (mn mx : ℚ)
    (hmn : ∀ x ∈ xs, mn ≤ x) (hmx : ∀ x ∈ xs, x ≤ mx) :
    ∃ md, omedian xs = some md ∧ mn ≤ md ∧ md ≤ mx := by
  unfold omedian
  rw [if_neg (by simpa [List.isEmpty_iff] using hne)]
  have hperm := List.perm_insertionSort (· ≤ ·) xs
  have hlenpos : 0 < (List.insertionSort (· ≤ ·) xs).length := by
    rw [hperm.length_eq]
    exact List.length_pos.mpr hne
  have hmem : ∀ i (hi : i < (List.insertionSort (· ≤ ·) xs).length),
      mn ≤ (List.insertionSort (· ≤ ·) xs)[i] ∧
        (List.insertionSort (· ≤ ·) xs)[i] ≤ mx := by
    intro i hi
    have hx : (List.insertionSort (· ≤ ·) xs)[i] ∈ xs :=
      hperm.mem_iff.mp (List.getElem_mem hi)
    exact ⟨hmn _ hx, hmx _ hx⟩
  have hidx2 : (List.insertionSort (· ≤ ·) xs).length / 2 <
      (List.insertionSort (· ≤ ·) xs).length :=
    Nat.div_lt_self hlenpos (by norm_num)
  have hidx1 : (List.insertionSort (· ≤ ·) xs).length / 2 - 1 <
      (List.insertionSort (· ≤ ·) xs).length :=
    lt_of_le_of_lt (Nat.sub_le _ _) hidx2
  by_cases hpar : (List.insertionSort (· ≤ ·) xs).length % 2 = 1
  · rw [if_pos hpar, List.getD_eq_getElem _ _ hidx2]
    exact ⟨_, rfl, (hmem _ hidx2).1, (hmem _ hidx2).2⟩
  · rw [if_neg hpar, List.getD_eq_getElem _ _ hidx1, List.getD_eq_getElem _ _ hidx2]
    refine ⟨_, rfl, ?_, ?_⟩
    · have h1 := (hmem _ hidx1).1
      have h2 := (hmem _ hidx2).1
      linarith
    · have h1 := (hmem _ hidx1).2
      have h2 := (hmem _ hidx2).2
      linarith

/-- C8: on a non-empty table whose present score values are all well-formed
numbers, every summary entry belongs to one of the three score metrics and its
statistics are defined with `min ≤ mean ≤ max` and `min ≤ median ≤ max`. -/
theorem C8_summary_bounds (t : Table) (hne : t.rows ≠ [])
    (hwf : ∀ r ∈ t.rows, ∀ col ∈ score_columns, (r.get col).isSome = true) :
    ∀ col st, (col, st) ∈ calculate_summary_stats t →
      col ∈ score_columns ∧
      ∃ mn me md mx, st.min = some mn ∧ st.mean = some me ∧ st.median = some md ∧
        st.max = some mx ∧ mn ≤ me ∧ me ≤ mx ∧ mn ≤ md ∧ md ≤ mx := by
  intro col st hmem
  rw [calculate_summary_stats, List.mem_filterMap] at hmem
  obtain ⟨c2, hc2, hf⟩ := hmem
  rw [Option.map_eq_some'] at hf
  obtain ⟨s2, hs2, hpair⟩ := hf
  injection hpair with he1 he2
  subst he1
  subst he2
  refine ⟨hc2, ?_⟩
  unfold summary_entry at hs2
  split at hs2
  · obtain rfl := (Option.some.inj hs2).symm
    have hvne : col_vals t.rows c2 ≠ [] := by
      rcases hr : t.rows with _ | ⟨r, rs⟩
      · exact absurd hr hne
      · intro hnil
        have hget := hwf r (by rw [hr]; simp) c2 hc2
        rw [col_vals, List.filterMap_eq_nil_iff] at hnil
        rw [hnil r (by simp)] at hget
        simp at hget
    obtain ⟨mn, hmn⟩ : ∃ mn, (col_vals t.rows c2).min? = some mn := by
      cases h : (col_vals t.rows c2).min? with
      | none => exact absurd (List.min?_eq_none_iff.mp h) hvne
      | some m => exact ⟨m, rfl⟩
    obtain ⟨mx, hmx⟩ : ∃ mx, (col_vals t.rows c2).max? = some mx := by
      cases h : (col_vals t.rows c2).max? with
      | none => exact absurd (List.max?_eq_none_iff.mp h) hvne
      | some m => exact ⟨m, rfl⟩
    have hmnspec := min?_spec hmn
    have hmxspec := max?_spec hmx
    obtain ⟨md, hmd, hmd1, hmd2⟩ :=
      omedian_bounds (col_vals t.rows c2) hvne mn mx hmnspec.2 hmxspec.2
    have hmean : omean (col_vals t.rows c2) =
        some ((col_vals t.rows c2).sum / (col_vals t.rows c2).length) := by
      rw [omean, if_neg (by simpa [List.isEmpty_iff] using hvne)]
    exact ⟨mn, (col_vals t.rows c2).sum / (col_vals t.rows c2).length, md, mx,
      hmn, hmean, hmd, hmx,
      le_list_mean _ mn hvne hmnspec.2, list_mean_le _ mx hvne hmxspec.2, hmd1, hmd2⟩
  · exact absurd hs2 (by simp)

/-- C8 witness: the bounds at the social entry of `t_two`. -/
theorem C8_witness :
    "social_score" ∈ score_columns ∧
    ∃ mn me md mx, stats_ex.min = some mn ∧ stats_ex.mean = some me ∧
      stats_ex.median = some md ∧ stats_ex.max = some mx ∧
      mn ≤ me ∧ me ≤ mx ∧ mn ≤ md ∧ md ≤ mx :=
  C8_summary_bounds t_two (by simp [t_two]) (by decide) "social_score" stats_ex (by
    have h1 : summary_entry t_two "social_score" = some stats_ex := by
      rw [summary_entry, if_pos (by decide)]
      norm_num [col_vals, t_two, rA, rB, Row.get, omean, omedian, svar, stats_ex,
        List.filterMap_cons, List.insertionSort, List.orderedInsert, List.min?, List.max?]
    rw [calculate_summary_stats]
    rw [List.mem_filterMap]
    exact ⟨"social_score", by decide, by rw [h1]; rfl⟩)

/-- A concern entry emitted for column `c` carries area `strip_score c`. -/
theorem concern_entry_area (t : Table) (h : ℚ) (c : String) (e : Concern)
    (hgc : concern_entry t h c = some e) : e.area = strip_score c := by
  simp only [concern_entry] at hgc
  split at hgc
  · split at hgc
    · exact absurd hgc (by simp)
    · obtain rfl := (Option.some.inj hgc).symm
      rfl
  · exact absurd hgc (by simp)

/-- Searching the concern list for an area produced by none of the generating
columns finds nothing. -/
theorem find?_area_none (t : Table) (h : ℚ) (area : String) (cs : List String)
    (hnotin : ∀ c ∈ cs, strip_score c ≠ area) :
    ((cs.filterMap fun c => concern_entry t h c).find? fun e => e.area == area) = none := by
  induction cs with
  | nil => simp
  | cons c cs ih =>
    rw [List.filterMap_cons]
    cases hgc : concern_entry t h c with
    | none => exact ih fun x hx => hnotin x (by simp [hx])
    | some e =>
      have harea : e.area = strip_score c := concern_entry_area t h c e hgc
      have hb : (e.area == area) = false :=
        beq_eq_false_iff_ne.mpr (harea ▸ hnotin c (by simp))
      simp [List.find?_cons, hb, ih fun x hx => hnotin x (by simp [hx])]

/-- Searching the concern list for the area of a generating column recovers
that column's entry, when the stripped names are injective on the columns. -/
theorem find?_concern (t : Table) (h : ℚ) (cs : List String) (col : String)
    (hcol : col ∈ cs)
    (hinj : ∀ c ∈ cs, strip_score c = strip_score col → c = col)
    (hnd : cs.Nodup) :
    ((cs.filterMap fun c => concern_entry t h c).find? fun e => e.area == strip_score col) =
      concern_entry t h col := by
  induction cs with
  | nil => simp at hcol
  | cons c cs ih =>
    rw [List.nodup_cons] at hnd
    rw [List.filterMap_cons]
    rcases List.mem_cons.mp hcol with rfl | hmem
    · cases hgc : concern_entry t h col with
      | none =>
        exact find?_area_none t h (strip_score col) cs
          fun x hx heq => hnd.1 (hinj x (by simp [hx]) heq ▸ hx)
      | some e =>
        have harea : e.area = strip_score col := concern_entry_area t h col e hgc
        simp [List.find?_cons, harea]
    · have hne : c ≠ col := fun hh => hnd.1 (hh ▸ hmem)
      cases hgc : concern_entry t h c with
      | none => exact ih hmem (fun x hx => hinj x (by simp [hx])) hnd.2
      | some e =>
        have harea : e.area = strip_score c := concern_entry_area t h c e hgc
        have hdiff : strip_score c ≠ strip_score col := fun heq => hne (hinj c (by simp) heq)
        simp [List.find?_cons, harea, beq_eq_false_iff_ne.mpr hdiff,
          ih hmem (fun x hx => hinj x (by simp [hx])) hnd.2]

/-- The reported count of a score column's area is the number of rows strictly
below the threshold (zero when the column is absent or no row qualifies). -/
theorem area_count_eq (t : Table) (h : ℚ) (col : String) (hcol : col ∈ score_columns) :
    area_count t h (strip_score col) =
      if col ∈ t.cols then t.rows.countP (below_threshold col h) else 0 := by
  have hinj : ∀ c ∈ score_columns, strip_score c = strip_score col → c = col := by
    have hc3 : col = "social_score" ∨ col = "communication_score" ∨
        col = "behavior_score" := by simpa [score_columns] using hcol
    rcases hc3 with rfl | rfl | rfl <;> decide
  unfold area_count identify_areas_of_concern
  rw [find?_concern t h score_columns col hcol hinj (by decide)]
  simp only [concern_entry]
  by_cases hc : col ∈ t.cols
  · rw [if_pos hc, if_pos hc]
    by_cases hl : (t.rows.filter (below_threshold col h)).isEmpty = true
    · rw [if_pos hl, List.countP_eq_length_filter, List.isEmpty_iff.mp hl]
      rfl
    · rw [if_neg hl, List.countP_eq_length_filter]
  · rw [if_neg hc, if_neg hc]

/-- C9: the concern count reported for any area (an absent entry counting as
zero) is monotone in the threshold: a larger threshold admits at least as many
qualifying rows for every area. -/
theorem C9_threshold_monotone (t : Table) (area : String) (h1 h2 : ℚ) (hle : h1 ≤ h2) :
    area_count t h1 area ≤ area_count t h2 area := by
  by_cases hmem : ∃ col ∈ score_columns, strip_score col = area
  · obtain ⟨col, hcol, rfl⟩ := hmem
    rw [area_count_eq t h1 col hcol, area_count_eq t h2 col hcol]
    by_cases hc : col ∈ t.cols
    · rw [if_pos hc, if_pos hc]
      refine List.countP_mono_left fun r _ hp => ?_
      unfold below_threshold at hp ⊢
      cases hg : r.get col with
      | none => rw [hg] at hp; simp at hp
      | some v =>
        rw [hg] at hp
        simp only [decide_eq_true_eq] at hp ⊢
        linarith
    · rw [if_neg hc, if_neg hc]
  · have hz : ∀ hh : ℚ, area_count t hh area = 0 := by
      intro hh
      unfold area_count identify_areas_of_concern
      rw [find?_area_none t hh area score_columns fun c hc heq => hmem ⟨c, hc, heq⟩]
    rw [hz h1, hz h2]

/-- C9 witness: monotonicity at thresholds 3 and 5 on `t_two`. -/
theorem C9_witness : area_count t_two 3 "communication" ≤ area_count t_two 5 "communication" :=
  C9_threshold_monotone t_two "communication" 3 5 (by norm_num)

/-- A strict upper bound of a non-empty list strictly bounds its sum against
the matching multiple. -/
theorem sum_lt_mul_length (xs : List ℚ) (M : ℚ) (hne : xs ≠ []) (h : ∀ x ∈ xs, x < M) :
    xs.sum < M * xs.length := by
  induction xs with
  | nil => exact absurd rfl hne
  | cons x xs ih =>
    rcases xs with _ | ⟨y, ys⟩
    · have := h x (by simp)
      simpa using this
    · have hx := h x (by simp)
      have hrest := ih (by simp) fun z hz => h z (List.mem_cons_of_mem x hz)
      simp only [List.sum_cons, List.length_cons] at hrest ⊢
      push_cast at hrest ⊢
      linarith

/-- A strict upper bound of a non-empty list strictly bounds its arithmetic
mean. -/
theorem list_mean_lt (xs : List ℚ) (M : ℚ) (hne : xs ≠ []) (h : ∀ x ∈ xs, x < M) :
    xs.sum / xs.length < M := by
  have hpos : (0 : ℚ) < xs.length := by
    exact_mod_cast List.length_pos.mpr hne
  rw [div_lt_iff₀ hpos]
  have := sum_lt_mul_length xs M hne h
  linarith

/-- C10: every emitted concern aggregates a non-empty set of qualifying rows,
so its count is at least one, its distinct-child count is between one and the
row count, and its average score is defined and strictly below the
threshold. -/
theorem C10_concern_invariants (t : Table) (h : ℚ) (e : Concern)
    (he : e ∈ identify_areas_of_concern t h) :
    1 ≤ e.count ∧ 1 ≤ e.affected_children ∧ e.affected_children ≤ e.count ∧
    ∃ v, e.average_score = some v ∧ v < h := by
  rw [identify_areas_of_concern, List.mem_filterMap] at he
  obtain ⟨col, hcol, hf⟩ := he
  simp only [concern_entry] at hf
  split at hf
  · split at hf
    · exact absurd hf (by simp)
    · rename_i hcols hne2
      obtain rfl := (Option.some.inj hf).symm
      have hlowne : t.rows.filter (below_threshold col h) ≠ [] := fun hh =>
        hne2 (List.isEmpty_iff.mpr hh)
      have hsome : ∀ r ∈ t.rows.filter (below_threshold col h),
          ∃ v, r.get col = some v ∧ v < h := by
        intro r hr
        have hbt := List.of_mem_filter hr
        unfold below_threshold at hbt
        cases hg : r.get col with
        | none => rw [hg] at hbt; simp at hbt
        | some v =>
          rw [hg] at hbt
          simp only [decide_eq_true_eq] at hbt
          exact ⟨v, rfl, hbt⟩
      have hvals : ∀ v ∈ col_vals (t.rows.filter (below_threshold col h)) col, v < h := by
        intro v hv
        rw [col_vals, List.mem_filterMap] at hv
        obtain ⟨r, hr, hget⟩ := hv
        obtain ⟨v2, hv2, hlt⟩ := hsome r hr
        rw [hget] at hv2
        exact (Option.some.inj hv2) ▸ hlt
      have hvne : col_vals (t.rows.filter (below_threshold col h)) col ≠ [] := by
        rcases hl2 : t.rows.filter (below_threshold col h) with _ | ⟨r, rs⟩
        · exact absurd hl2 hlowne
        · intro hh
          rw [col_vals, List.filterMap_eq_nil_iff] at hh
          obtain ⟨v, hv, -⟩ := hsome r (by rw [hl2]; simp)
          rw [hh r (by simp)] at hv
          exact Option.noConfusion hv
      refine ⟨List.length_pos.mpr hlowne, ?_, ?_, ?_⟩
      · have hmapne : (t.rows.filter (below_threshold col h)).map Row.child_id ≠ [] := by
          intro hh
          rw [List.map_eq_nil_iff] at hh
          exact hlowne hh
        have : ((t.rows.filter (below_threshold col h)).map Row.child_id).dedup ≠ [] := by
          intro hh
          rcases hmm : (t.rows.filter (below_threshold col h)).map Row.child_id with
            _ | ⟨x, xs⟩
          · exact hmapne hmm
          · have hx : x ∈ ((t.rows.filter (below_threshold col h)).map Row.child_id).dedup :=
              List.mem_dedup.mpr (by rw [hmm]; simp)
            rw [hh] at hx
            exact absurd hx (List.not_mem_nil x)
        exact List.length_pos.mpr this
      · calc ((t.rows.filter (below_threshold col h)).map Row.child_id).dedup.length
            ≤ ((t.rows.filter (below_threshold col h)).map Row.child_id).length :=
              (List.dedup_sublist _).length_le
          _ = (t.rows.filter (below_threshold col h)).length := List.length_map _ _
      · refine ⟨(col_vals (t.rows.filter (below_threshold col h)) col).sum /
            (col_vals (t.rows.filter (below_threshold col h)) col).length, ?_, ?_⟩
        · rw [omean, if_neg (by simpa [List.isEmpty_iff] using hvne)]
        · exact list_mean_lt _ h hvne hvals
  · exact absurd hf (by simp)

/-- C10 witness: the invariants at the communication concern of `t_two` with
threshold 5. -/
theorem C10_witness :
    1 ≤ e_conc.count ∧ 1 ≤ e_conc.affected_children ∧
    e_conc.affected_children ≤ e_conc.count ∧
    ∃ v, e_conc.average_score = some v ∧ v < 5 :=
  C10_concern_invariants t_two 5 e_conc (by
    have : identify_areas_of_concern t_two 5 =
        [e_conc,
         { area := "behavior", count := 1, affected_children := 1,
           average_score := some 4 }] := by
      simp +decide [identify_areas_of_concern, concern_entry, t_two, rA, rB, Row.get,
        score_columns, default_cols, below_threshold, strip_score, omean, col_vals,
        e_conc, List.filter_cons, List.filterMap_cons, List.dedup]
      norm_num
    rw [this]
    simp)
